import Mathlib

set_option maxRecDepth 8000

namespace RefclockJavad

/-- One week of seconds: the `WEEKSECS` macro, `7 * 24 * 60 * 60`. -/
def WEEKSECS : Nat := 7 * 24 * 60 * 60

/-- Unix timestamp of the GPS epoch (January 6, 1980): the `GPS_EPOCH` macro. -/
def GPS_EPOCH : Nat := 315964800

/-- Modulus of the C `u_int` / `u_int32` types used by the driver. -/
def U32 : Nat := 2 ^ 32

/-- Modulus of the C `u_short` type. -/
def U16 : Nat := 2 ^ 16

/-- The `getshort` macro.  On a little-endian host it is `(u_short)(s)`; words
are modelled as `Nat`, so this is reduction mod `2^16`.  (The big-endian
variant swaps bytes to reach the same host-order value; all statements here
are over host-order word values.) -/
def getshort (s : Nat) : Nat := s % U16

/-- The summation loop of `javad_cksum`: `sum` is a `u_short` accumulator, so
every addition is reduced mod `2^16`. -/
def cksumSum : List Nat → Nat → Nat
  | [], sum => sum
  | x :: rest, sum => cksumSum rest ((sum + getshort x) % U16)

/-- The function `javad_cksum`: checksums a list of 16-bit words and returns `~sum + 1` as a
`u_short`.  For `sum < 2^16` the C expression `~sum + 1` (complement in `int`,
truncated back to `u_short`) equals `(2^16 - 1 - sum) + 1` mod `2^16`. -/
def javad_cksum (sp : List Nat) : Nat := (U16 - 1 - cksumSum sp 0 + 1) % U16

/-- The subset of `struct instance` manipulated by the time/position parsers:
`gpos_gweek`, `gpos_sweek`, `gweek` are C `u_int`, `lastsweek` is `u_int32`,
`timecode` is a `time_t` holding a nonnegative reconstructed Unix time. -/
structure Instance where
  gpos_gweek : Nat
  gpos_sweek : Nat
  gweek : Nat
  lastsweek : Nat
  timecode : Nat
deriving DecidableEq

/-- The fields of `struct jpulse` consumed by `javad_parse_t`.  The struct
itself lives in a header that is not part of this repository snapshot; per the
spec a pulse message carries `seconds_into_week` (decoded by `DS2UI` into a
`u_int`, modelled as `sweek`) and the two flag bits `JAVAD_O_PULSE_VALID`
(`valid`) and `JAVAD_O_PULSE_UTC` (`utc`). -/
structure Jpulse where
  sweek : Nat
  valid : Bool
  utc : Bool
deriving DecidableEq

/-- One `javad_debug` call made by `javad_parse_t`, in source order:
the "NEW gps week" message, the "gps sweek not incrementing" message, the
"gps sweek jumped" message, and the trailing "UTC ..." debug message (which
comes in a `<none>` form when no previous timecode exists). -/
inductive LogEvent where
  | newWeek (gweek : Nat)
  | notIncrementing (sweek : Nat)
  | sweekJumped (last sweek : Nat)
  | utcNone (gweek sweek : Nat)
  | utcShown (gweek sweek : Nat)
deriving DecidableEq

/-- Result of `javad_parse_t`: the updated instance, the `javad_debug` calls
made, whether `refclock_report(CEVNT_BADTIME)` was issued, and the returned
error string (`none` models the C `NULL` return). -/
structure TResult where
  inst : Instance
  logs : List LogEvent
  badtime : Bool
  err : Option String
deriving DecidableEq

/-- Tail of `javad_parse_t`, from the warp/stall diagnostics onward: `inst`
already carries the resolved GPS week and `logs1` the log entries emitted by
the week resolution.  Mirrors the source line by line: the stall/warp
diagnostics, the `lastsweek` update, the timecode reconstruction (all C
`u_int` arithmetic, hence the mod `2^32`), the UTC debug message, and finally
the two flag checks that report `CEVNT_BADTIME` and return an error string. -/
def javad_parse_t_rest (inst : Instance) (logs1 : List LogEvent) (sweek : Nat)
    (jp : Jpulse) : TResult :=
  let logs2 :=
    if inst.lastsweek = sweek then [LogEvent.notIncrementing sweek]
    else if inst.lastsweek ≠ 2 * WEEKSECS ∧ (inst.lastsweek + 1) % U32 ≠ sweek ∧
        ¬(sweek = 0 ∧ inst.lastsweek = WEEKSECS - 1) then
      [LogEvent.sweekJumped inst.lastsweek sweek]
    else []
  let last_timecode := inst.timecode
  let timecode := (GPS_EPOCH + inst.gweek * WEEKSECS + sweek) % U32
  let logs3 :=
    if last_timecode = 0 then [LogEvent.utcNone inst.gweek sweek]
    else [LogEvent.utcShown inst.gweek sweek]
  let inst' : Instance := { inst with lastsweek := sweek, timecode := timecode }
  if jp.valid = false then
    ⟨inst', logs1 ++ logs2 ++ logs3, true, some "time mark not valid"⟩
  else if jp.utc = false then
    ⟨inst', logs1 ++ logs2 ++ logs3, true, some "time mark not sync\x27ed to UTC"⟩
  else
    ⟨inst', logs1 ++ logs2 ++ logs3, false, none⟩

/-- Model of `javad_parse_t`.  Here `sweek` is `DS2UI(jp->sweek) % WEEKSECS`.  When the GPS
week is unknown (`gweek == 0`) and no position anchor exists the function
returns early with an error; otherwise the week is resolved (anchor plus
half-week tie-break, or natural rollover) and processing continues in
`javad_parse_t_rest`.  `++gweek` and `--gweek` are C `u_int` operations; the
decrement is only reached with `gpos_gweek ≠ 0`, so plain `Nat` subtraction
agrees with the C wrap-around semantics there. -/
def javad_parse_t (inst : Instance) (jp : Jpulse) : TResult :=
  let sweek := jp.sweek % WEEKSECS
  if inst.gweek = 0 then
    if inst.gpos_gweek = 0 then
      ⟨inst, [], false, some "javad_parse_t: Unknown gweek"⟩
    else
      let g :=
        if inst.gpos_sweek ≥ sweek then
          if inst.gpos_sweek - sweek > WEEKSECS / 2 then (inst.gpos_gweek + 1) % U32
          else inst.gpos_gweek
        else
          if sweek - inst.gpos_sweek > WEEKSECS / 2 then inst.gpos_gweek - 1
          else inst.gpos_gweek
      javad_parse_t_rest { inst with gweek := g } [] sweek jp
  else if sweek = 0 ∧ inst.lastsweek = WEEKSECS - 1 then
    javad_parse_t_rest { inst with gweek := (inst.gweek + 1) % U32 }
      [LogEvent.newWeek ((inst.gweek + 1) % U32)] sweek jp
  else
    javad_parse_t_rest inst [] sweek jp

/-- The state effect of `javad_parse_t`, written without any reference to the
stall/warp diagnostics: the week resolution, the `lastsweek` update and the
timecode reconstruction.  `javad_parse_t_inst_eq` proves that the full parser
changes the instance exactly this way, i.e. the diagnostics are side-effect
free on the tracked state. -/
def resolveState (inst : Instance) (raw : Nat) : Instance :=
  let sweek := raw % WEEKSECS
  if inst.gweek = 0 then
    if inst.gpos_gweek = 0 then inst
    else
      let g :=
        if inst.gpos_sweek ≥ sweek then
          if inst.gpos_sweek - sweek > WEEKSECS / 2 then (inst.gpos_gweek + 1) % U32
          else inst.gpos_gweek
        else
          if sweek - inst.gpos_sweek > WEEKSECS / 2 then inst.gpos_gweek - 1
          else inst.gpos_gweek
      { inst with
          gweek := g
          lastsweek := sweek
          timecode := (GPS_EPOCH + g * WEEKSECS + sweek) % U32 }
  else if sweek = 0 ∧ inst.lastsweek = WEEKSECS - 1 then
    { inst with
        gweek := (inst.gweek + 1) % U32
        lastsweek := sweek
        timecode := (GPS_EPOCH + ((inst.gweek + 1) % U32) * WEEKSECS + sweek) % U32 }
  else
    { inst with
        lastsweek := sweek
        timecode := (GPS_EPOCH + inst.gweek * WEEKSECS + sweek) % U32 }

/-- The fields of `struct jgpos` consumed by `javad_parse_gpos`: the
navigation-solution validity word `navval`, the GPS week and the `DS2UI`
decoded seconds-into-week. -/
structure Jgpos where
  navval : Nat
  gweek : Nat
  sweek : Nat
deriving DecidableEq

/-- Result of `javad_parse_gpos`: updated instance and returned error. -/
structure GposResult where
  inst : Instance
  err : Option String
deriving DecidableEq

/-- The `while (gpos_sweek >= WEEKSECS) { gpos_sweek -= WEEKSECS; ++gpos_gweek; }`
normalization loop of `javad_parse_gpos` (`++` on a `u_int`, hence mod `2^32`). -/
def gpos_norm (gw sw : Nat) : Nat × Nat :=
  if sw ≥ WEEKSECS then gpos_norm ((gw + 1) % U32) (sw - WEEKSECS) else (gw, sw)
termination_by sw
decreasing_by
  have hW : 0 < WEEKSECS := by decide
  omega

/-- Model of `javad_parse_gpos`: an invalid navigation solution clears the two `gpos`
anchor fields and returns an error (the `gweek = 0` reset is only performed in
the valid branch); a valid one stores the normalized anchor and resets `gweek`
to unknown. -/
def javad_parse_gpos (inst : Instance) (jg : Jgpos) : GposResult :=
  if jg.navval ≠ 0 then
    ⟨{ inst with gpos_gweek := 0, gpos_sweek := 0 },
      some "Navigation solution not valid"⟩
  else
    let p := gpos_norm jg.gweek jg.sweek
    ⟨{ inst with gpos_gweek := p.1, gpos_sweek := p.2, gweek := 0 }, none⟩

/-- Size of the `ibuf` field of `struct instance` (`char ibuf[512]`). -/
def IBUFSIZ : Nat := 512

/-- The terminator scan of `javad_receive`: walking the buffer while at least
two bytes remain, looking for the first `'\r'` (13) immediately followed by
`'\n'` (10); returns the index of the `'\r'`. -/
def findCrLf : List Nat → Option Nat
  | b :: c :: rest =>
      if b = 13 ∧ c = 10 then some 0
      else Option.map (· + 1) (findCrLf (c :: rest))
  | _ => none

/-- Number of positions at which the two-byte terminator `CR LF` occurs
(same two-byte walk as `findCrLf`). -/
def crlfCount : List Nat → Nat
  | b :: c :: rest =>
      (if b = 13 ∧ c = 10 then 1 else 0) + crlfCount (c :: rest)
  | _ => 0

/-- Result of one `javad_receive` call: the bytes left in `ibuf` (the model
keeps exactly the `ssize` live bytes), the line printed/consumed this call
(including its `CR LF` terminator), and whether the `ssize < len` failure
branch ending in `abort()` was taken. -/
structure ReceiveResult where
  buf : List Nat
  frame : Option (List Nat)
  aborted : Bool
deriving DecidableEq

/-- Model of `javad_receive` on one delivered chunk.  The incoming length is clamped to
`sizeof(ibuf) - (ssize - 1)`; with `sizeof` being unsigned this evaluates to
`513 - ssize` for every `ssize ≥ 0`, which is `IBUFSIZ + 1 - buf.length` here
(the model assumes the live size stays ≤ 513, which `claim_C7_amended`
proves, so the unsigned wrap for `ssize > 513` never fires).  The clamped
bytes are appended with `strlcpy`, which the model renders as a verbatim
copy.  That rendering is exact for NUL-free chunks, and also for one-byte
chunks (for a chunk `[0]`, `strlcpy` writes the terminating NUL at the same
position, producing the same live byte); for a longer chunk containing a
NUL, real `strlcpy` stops copying at the NUL while `ssize` still advances
by the full clamped length, exposing stale array bytes (whose values C does
not even define, as the housekeeping `memcpy` reads past the array), so the
buffered CONTENT diverges from this model there.  Every theorem below about
buffer content therefore carries a NUL-free-delivery hypothesis; the `ssize`
accounting itself (`ssize += len`) is faithful for arbitrary chunks.  Then
the first `CR LF` is searched; if found, the line through the terminator is
printed and the housekeeping either clears the buffer (`ssize == len`),
shifts the leftover bytes to the front (`ssize > len`), or hits the
`abort()` branch. -/
def javad_receive (buf chunk : List Nat) : ReceiveResult :=
  let len := min chunk.length (IBUFSIZ + 1 - buf.length)
  let buf1 := buf ++ chunk.take len
  match findCrLf buf1 with
  | none => ⟨buf1, none, false⟩
  | some i =>
      if buf1.length = i + 2 then ⟨[], some (buf1.take (i + 2)), false⟩
      else if buf1.length > i + 2 then
        ⟨buf1.drop (i + 2), some (buf1.take (i + 2)), false⟩
      else ⟨buf1, some (buf1.take (i + 2)), true⟩

/-- Repeated invocation of `javad_receive`, one call per delivered chunk,
collecting the consumed lines in order. -/
def javad_receive_run (buf : List Nat) (chunks : List (List Nat)) :
    List Nat × List (List Nat) :=
  match chunks with
  | [] => (buf, [])
  | c :: cs =>
      let r := javad_receive buf c
      let rest := javad_receive_run r.buf cs
      (rest.1, r.frame.toList ++ rest.2)

/-- A `struct timespec` (two C `long` fields). -/
structure Timespec where
  tv_sec : Int
  tv_nsec : Int
deriving DecidableEq

/-- A `pps_info_t`: edge sequence counters and edge timestamps. -/
structure PpsInfo where
  assert_sequence : Nat
  clear_sequence : Nat
  assert_timestamp : Timespec
  clear_timestamp : Timespec
deriving DecidableEq

/-- The PPS-related fields of `struct instance`: the last fetched
`pps_info`, the last emitted timestamp `ts`, and the configured capture mode
bits `PPS_CAPTUREASSERT` / `PPS_CAPTURECLEAR` of `pps_params.mode`. -/
structure PpsState where
  pps_info : PpsInfo
  ts : Timespec
  modeAssert : Bool
  modeClear : Bool
deriving DecidableEq

/-- Model of `javad_pps` on one successful `time_pps_fetch`.  The previous
`instance->pps_info` is saved, the fetch overwrites it with `fetched`, then
the edge selected by the capture mode is compared: an unchanged sequence
number, or a timestamp bit-identical to the last stored `instance->ts`,
yields no new sample (C return 1); otherwise `instance->ts` is updated and
the timestamp is emitted as the new reference sample (the write to
`peer->procptr->lastrec`, C return 0).  The conversion of the emitted
timespec into the daemon l_fp format (which goes through a C `double`) is
not modelled; the emission is represented by the timespec itself. -/
def javad_pps (st : PpsState) (fetched : PpsInfo) : PpsState × Option Timespec :=
  let old := st.pps_info
  let st1 : PpsState := { st with pps_info := fetched }
  if st1.modeAssert then
    if old.assert_sequence = fetched.assert_sequence then (st1, none)
    else
      let ts := fetched.assert_timestamp
      if st1.ts = ts then (st1, none)
      else ({ st1 with ts := ts }, some ts)
  else if st1.modeClear then
    if old.clear_sequence = fetched.clear_sequence then (st1, none)
    else
      let ts := fetched.clear_timestamp
      if st1.ts = ts then (st1, none)
      else ({ st1 with ts := ts }, some ts)
  else (st1, none)

/-- Result of `javad_recv`: the returned byte count (`0` means "no complete
frame") and whether the buffer was flushed (`instance->ssize = 0` on a
checksum failure). -/
structure JRecvResult where
  cc : Nat
  flush : Bool
deriving DecidableEq

/-- Model of `javad_recv` over the word buffer (`u_short *sp`); `buf` lists
the buffered 16-bit words, so the byte count `ssize` is `2 * buf.length`.
`syncWord` stands for the `JAVAD_SYNC` constant, whose value lives in a
header that is not part of this repository snapshot, so it is passed as a
parameter.  The byte-by-byte resynchronization scan for a buffer that does
not start with the sync word is not modelled (it only shifts the buffer and
re-enters the same path); this model covers the aligned case and reports
no-frame otherwise.  The header is `sizeof(struct jheader)` = 12 bytes = 6
words (`sync`, `id`, `len`, `seq`, `flags`, `hsum`); its checksum is taken
over the first `12 / 2 - 1 = 5` words.  A declared payload of `len > 0`
words requires `(len + 1)` further words buffered and is checksummed over
`len` words against word `sp[len]`. -/
def javad_recv (syncWord : Nat) (buf : List Nat) : JRecvResult :=
  if 2 * buf.length < 12 then ⟨0, false⟩
  else if getshort (buf.getD 0 0) ≠ syncWord then ⟨0, false⟩
  else if javad_cksum (buf.take 5) ≠ getshort (buf.getD 5 0) then ⟨0, true⟩
  else
    let len := getshort (buf.getD 2 0)
    if len > 0 then
      let n := (len + 1) * 2
      if 2 * buf.length < 12 + n then ⟨0, false⟩
      else
        let sp := buf.drop 6
        if javad_cksum (sp.take len) ≠ getshort (sp.getD len 0) then ⟨0, true⟩
        else ⟨12 + n, false⟩
    else ⟨12, false⟩

/-- Modelled from the spec: the frame-reader behaviour the claim describes,
with the payload laid out as `payload_length + 1` words followed by a
checksum word — i.e. a declared length `len > 0` needs `len + 2` further
words buffered and the payload checksum is computed over `len + 1` words and
compared against word `sp[len + 1]`.  Identical to `javad_recv` in every
other respect.  (The `struct jheader` layout itself is not in this
repository snapshot; only the payload convention differs between spec and
code.) -/
def spec_recv (syncWord : Nat) (buf : List Nat) : JRecvResult :=
  if 2 * buf.length < 12 then ⟨0, false⟩
  else if getshort (buf.getD 0 0) ≠ syncWord then ⟨0, false⟩
  else if javad_cksum (buf.take 5) ≠ getshort (buf.getD 5 0) then ⟨0, true⟩
  else
    let len := getshort (buf.getD 2 0)
    if len > 0 then
      let n := (len + 2) * 2
      if 2 * buf.length < 12 + n then ⟨0, false⟩
      else
        let sp := buf.drop 6
        if javad_cksum (sp.take (len + 1)) ≠ getshort (sp.getD (len + 1) 0) then ⟨0, true⟩
        else ⟨12 + n, false⟩
    else ⟨12, false⟩

/-- Feeding a list of pulse messages through `javad_parse_t` in order,
collecting all `javad_debug` calls. -/
def javad_parse_t_run (inst : Instance) (msgs : List Jpulse) :
    Instance × List LogEvent :=
  match msgs with
  | [] => (inst, [])
  | jp :: rest =>
      let r := javad_parse_t inst jp
      let rr := javad_parse_t_run r.inst rest
      (rr.1, r.logs ++ rr.2)

/-- Whether a log event is the "gps sweek jumped" warp diagnostic. -/
def isWarp : LogEvent → Bool
  | LogEvent.sweekJumped _ _ => true
  | _ => false

/-- Number of warp ("gps sweek jumped") diagnostics in a log. -/
def countWarp (logs : List LogEvent) : Nat := logs.countP isWarp

end RefclockJavad

namespace RefclockJavad

theorem cksumSum_lt (sp : List Nat) (acc : Nat) (h : acc < U16) :
    cksumSum sp acc < U16 := by
  induction sp generalizing acc with
  | nil => exact h
  | cons x rest ih =>
      exact ih _ (Nat.mod_lt _ (by decide))

theorem cksumSum_eq_sum (sp : List Nat) (acc : Nat) (h : acc < U16) :
    cksumSum sp acc = (acc + (sp.map getshort).sum) % U16 := by
  induction sp generalizing acc with
  | nil => simp [cksumSum, Nat.mod_eq_of_lt h]
  | cons x rest ih =>
      have := ih ((acc + getshort x) % U16) (Nat.mod_lt _ (by decide))
      simp only [cksumSum, List.map_cons, List.sum_cons, this]
      rw [Nat.mod_add_mod]
      ring_nf

theorem cksumSum_append (xs ys : List Nat) (acc : Nat) :
    cksumSum (xs ++ ys) acc = cksumSum ys (cksumSum xs acc) := by
  induction xs generalizing acc with
  | nil => rfl
  | cons x rest ih => simp [cksumSum, ih]

theorem javad_parse_t_rest_inst (inst : Instance) (logs1 : List LogEvent)
    (sweek : Nat) (jp : Jpulse) :
    (javad_parse_t_rest inst logs1 sweek jp).inst =
      { inst with
          lastsweek := sweek
          timecode := (GPS_EPOCH + inst.gweek * WEEKSECS + sweek) % U32 } := by
  unfold javad_parse_t_rest
  dsimp only
  split_ifs <;> rfl

theorem javad_parse_t_rest_badtime (inst : Instance) (logs1 : List LogEvent)
    (sweek : Nat) (jp : Jpulse) (h : jp.valid = false ∨ jp.utc = false) :
    (javad_parse_t_rest inst logs1 sweek jp).badtime = true ∧
    (javad_parse_t_rest inst logs1 sweek jp).err ≠ none := by
  unfold javad_parse_t_rest
  dsimp only
  rcases h with h | h
  · rw [if_pos h]
    exact ⟨rfl, by simp⟩
  · cases hv : jp.valid with
    | false => rw [if_pos rfl]; exact ⟨rfl, by simp⟩
    | true =>
        rw [if_neg (by simp [hv]), if_pos h]
        exact ⟨rfl, by simp⟩

theorem javad_parse_t_frozen (inst : Instance) (jp : Jpulse)
    (h1 : inst.gweek = 0) (h2 : inst.gpos_gweek = 0) :
    javad_parse_t inst jp =
      ⟨inst, [], false, some "javad_parse_t: Unknown gweek"⟩ := by
  unfold javad_parse_t
  dsimp only
  rw [if_pos h1, if_pos h2]

theorem javad_parse_t_inst_eq (inst : Instance) (jp : Jpulse) :
    (javad_parse_t inst jp).inst = resolveState inst jp.sweek := by
  unfold javad_parse_t resolveState
  dsimp only
  split_ifs <;> simp [javad_parse_t_rest_inst]

theorem resolveState_lastsweek (inst : Instance) (raw : Nat)
    (h : ¬(inst.gweek = 0 ∧ inst.gpos_gweek = 0)) :
    (resolveState inst raw).lastsweek = raw % WEEKSECS := by
  unfold resolveState
  dsimp only
  split_ifs with h1 h2 <;> first
    | rfl
    | exact absurd ⟨h1, h2⟩ h

/-- C1: confirmed.  While the GPS week is unknown and a position anchor is
established, `javad_parse_t` resolves the week from the anchor with the
half-week tie-break exactly as claimed (`+1` is the C `u_int` increment,
hence the `% 2^32`; the decrement is only reached with a nonzero anchor
week); in particular an anchor at `WEEKSECS - 10` with a pulse at `s = 5`
resolves to the anchor week plus one. -/
theorem claim_C1 :
    (∀ (inst : Instance) (jp : Jpulse), inst.gweek = 0 → inst.gpos_gweek ≠ 0 →
      (javad_parse_t inst jp).inst.gweek =
        (if inst.gpos_sweek ≥ jp.sweek % WEEKSECS then
          if inst.gpos_sweek - jp.sweek % WEEKSECS > WEEKSECS / 2 then
            (inst.gpos_gweek + 1) % U32
          else inst.gpos_gweek
        else
          if jp.sweek % WEEKSECS - inst.gpos_sweek > WEEKSECS / 2 then
            inst.gpos_gweek - 1
          else inst.gpos_gweek)) ∧
    (∀ (inst : Instance) (jp : Jpulse), inst.gweek = 0 → inst.gpos_gweek ≠ 0 →
      inst.gpos_gweek + 1 < U32 → inst.gpos_sweek = WEEKSECS - 10 →
      jp.sweek % WEEKSECS = 5 →
      (javad_parse_t inst jp).inst.gweek = inst.gpos_gweek + 1) := by
  have main : ∀ (inst : Instance) (jp : Jpulse), inst.gweek = 0 →
      inst.gpos_gweek ≠ 0 →
      (javad_parse_t inst jp).inst.gweek =
        (if inst.gpos_sweek ≥ jp.sweek % WEEKSECS then
          if inst.gpos_sweek - jp.sweek % WEEKSECS > WEEKSECS / 2 then
            (inst.gpos_gweek + 1) % U32
          else inst.gpos_gweek
        else
          if jp.sweek % WEEKSECS - inst.gpos_sweek > WEEKSECS / 2 then
            inst.gpos_gweek - 1
          else inst.gpos_gweek) := by
    intro inst jp h1 h2
    rw [javad_parse_t_inst_eq]
    unfold resolveState
    dsimp only
    rw [if_pos h1, if_neg h2]
  refine ⟨main, ?_⟩
  intro inst jp h1 h2 h3 h4 h5
  rw [main inst jp h1 h2, h4, h5]
  have hW : WEEKSECS = 604800 := rfl
  rw [if_pos (by omega), if_pos (by omega)]
  exact Nat.mod_eq_of_lt h3

theorem claim_C1_witness :
    (javad_parse_t ⟨2000, WEEKSECS - 10, 0, 2 * WEEKSECS, 0⟩
      ⟨5, true, true⟩).inst.gweek = 2001 := by
  have h := claim_C1.2 ⟨2000, WEEKSECS - 10, 0, 2 * WEEKSECS, 0⟩
    ⟨5, true, true⟩ rfl (by decide) (by decide) rfl (by decide)
  simpa using h

/-- C3: the claim as stated is false: a pulse message with the valid flag
clear is rejected with a bad-time report, but `instance->timecode` has
already been updated to the newly reconstructed time (here from the old
value 12345 to 1646524806). -/
theorem claim_C3_counterexample :
    ((javad_parse_t ⟨0, 0, 2200, 5, 12345⟩ ⟨6, false, true⟩).badtime = true) ∧
    ((javad_parse_t ⟨0, 0, 2200, 5, 12345⟩ ⟨6, false, true⟩).err =
      some "time mark not valid") ∧
    ((javad_parse_t ⟨0, 0, 2200, 5, 12345⟩ ⟨6, false, true⟩).inst.timecode =
      1646524806) ∧ (1646524806 ≠ 12345) := by
  decide

/-- C3: corrected.  A pulse message with the valid flag clear or the UTC
flag clear is rejected — `CEVNT_BADTIME` is reported and an error string is
returned — but the stored reconstructed time is updated first: `timecode`
always holds the newly reconstructed value after the call (whenever the
call gets past the unknown-week early return). -/
theorem claim_C3_amended :
    ∀ (inst : Instance) (jp : Jpulse),
      ¬(inst.gweek = 0 ∧ inst.gpos_gweek = 0) →
      (jp.valid = false ∨ jp.utc = false) →
      (javad_parse_t inst jp).badtime = true ∧
      (javad_parse_t inst jp).err ≠ none ∧
      (javad_parse_t inst jp).inst.timecode =
        (GPS_EPOCH + (javad_parse_t inst jp).inst.gweek * WEEKSECS +
          jp.sweek % WEEKSECS) % U32 := by
  intro inst jp h hflag
  have hb := fun (inst0 : Instance) (logs1 : List LogEvent) (sweek : Nat) =>
    javad_parse_t_rest_badtime inst0 logs1 sweek jp hflag
  unfold javad_parse_t
  dsimp only
  by_cases h1 : inst.gweek = 0
  · rw [if_pos h1]
    by_cases h2 : inst.gpos_gweek = 0
    · exact absurd ⟨h1, h2⟩ h
    · rw [if_neg h2]
      refine ⟨(hb _ _ _).1, (hb _ _ _).2, ?_⟩
      rw [javad_parse_t_rest_inst]
  · rw [if_neg h1]
    by_cases h3 : jp.sweek % WEEKSECS = 0 ∧ inst.lastsweek = WEEKSECS - 1
    · rw [if_pos h3]
      refine ⟨(hb _ _ _).1, (hb _ _ _).2, ?_⟩
      rw [javad_parse_t_rest_inst]
    · rw [if_neg h3]
      refine ⟨(hb _ _ _).1, (hb _ _ _).2, ?_⟩
      rw [javad_parse_t_rest_inst]

theorem claim_C3_amended_witness :
    (javad_parse_t ⟨0, 0, 2300, 7, 99⟩ ⟨8, true, false⟩).badtime = true ∧
    (javad_parse_t ⟨0, 0, 2300, 7, 99⟩ ⟨8, true, false⟩).err ≠ none ∧
    (javad_parse_t ⟨0, 0, 2300, 7, 99⟩ ⟨8, true, false⟩).inst.timecode =
      (GPS_EPOCH + (javad_parse_t ⟨0, 0, 2300, 7, 99⟩
        ⟨8, true, false⟩).inst.gweek * WEEKSECS + 8 % WEEKSECS) % U32 :=
  claim_C3_amended ⟨0, 0, 2300, 7, 99⟩ ⟨8, true, false⟩ (by decide)
    (Or.inr rfl)

/-- C4: the claim as stated is false: an invalid navigation solution clears
the two position-anchor fields, but `instance->gweek` is left untouched
(here it stays 5 instead of being cleared to the 0-as-unknown sentinel:
the `instance->gweek = 0` statement sits after the early return, in the
valid-solution path only). -/
theorem claim_C4_counterexample :
    ((javad_parse_gpos ⟨7, 8, 5, 9, 11⟩ ⟨1, 2190, 30⟩).inst.gweek = 5) ∧
    (5 ≠ 0) ∧
    ((javad_parse_gpos ⟨7, 8, 5, 9, 11⟩ ⟨1, 2190, 30⟩).inst.gpos_gweek = 0) ∧
    ((javad_parse_gpos ⟨7, 8, 5, 9, 11⟩ ⟨1, 2190, 30⟩).inst.gpos_sweek = 0) ∧
    ((javad_parse_gpos ⟨7, 8, 5, 9, 11⟩ ⟨1, 2190, 30⟩).err ≠ none) := by
  decide

/-- C4: corrected.  For a position message with an invalid solution the
handler sets `gpos_gweek`/`gpos_sweek` to 0 and returns an error, with no
other state change — in particular `gweek` keeps its current value and is
NOT cleared to the unknown state. -/
theorem claim_C4_amended :
    ∀ (inst : Instance) (jg : Jgpos), jg.navval ≠ 0 →
      javad_parse_gpos inst jg =
        ⟨{ inst with gpos_gweek := 0, gpos_sweek := 0 },
          some "Navigation solution not valid"⟩ := by
  intro inst jg h
  unfold javad_parse_gpos
  rw [if_pos h]

theorem claim_C4_amended_witness :
    javad_parse_gpos ⟨3, 4, 6, 9, 11⟩ ⟨2, 2190, 30⟩ =
      ⟨⟨0, 0, 6, 9, 11⟩, some "Navigation solution not valid"⟩ :=
  claim_C4_amended ⟨3, 4, 6, 9, 11⟩ ⟨2, 2190, 30⟩ (by decide)

/-- C2: confirmed.  The checksum computed by `javad_cksum` is the
two's-complement negation mod `2^16` of the sum of the byte-order-normalized
words, and appending a word list's own checksum and recomputing yields 0. -/
theorem claim_C2 :
    (∀ sp : List Nat,
      javad_cksum sp = (U16 - (sp.map getshort).sum % U16) % U16) ∧
    (∀ sp : List Nat, javad_cksum (sp ++ [javad_cksum sp]) = 0) := by
  constructor
  · intro sp
    have hS : cksumSum sp 0 = (sp.map getshort).sum % U16 := by
      simpa using cksumSum_eq_sum sp 0 (by decide)
    have hlt : (sp.map getshort).sum % U16 < U16 := Nat.mod_lt _ (by decide)
    rw [javad_cksum, hS]
    simp only [U16] at *
    omega
  · intro sp
    have hS : cksumSum sp 0 < U16 := cksumSum_lt sp 0 (by decide)
    rw [javad_cksum, cksumSum_append]
    simp only [cksumSum, javad_cksum, getshort]
    simp only [U16] at *
    omega

theorem countWarp_append (a b : List LogEvent) :
    countWarp (a ++ b) = countWarp a + countWarp b :=
  List.countP_append _ _ _

theorem countWarp_rest (inst : Instance) (logs1 : List LogEvent) (sweek : Nat)
    (jp : Jpulse) (hl : countWarp logs1 = 0)
    (h : inst.lastsweek = 2 * WEEKSECS ∨ (inst.lastsweek + 1) % U32 = sweek ∨
      (sweek = 0 ∧ inst.lastsweek = WEEKSECS - 1) ∨ inst.lastsweek = sweek) :
    countWarp (javad_parse_t_rest inst logs1 sweek jp).logs = 0 := by
  unfold javad_parse_t_rest
  dsimp only
  split_ifs with hA hB hC <;>
    first
      | (rw [countWarp_append, countWarp_append, hl]
         simp [countWarp, List.countP_cons, isWarp]
         done)
      | (exfalso; rcases h with h | h | h | h <;> tauto)

theorem countWarp_parse (inst : Instance) (jp : Jpulse)
    (h : inst.lastsweek = 2 * WEEKSECS ∨
      (inst.lastsweek + 1) % U32 = jp.sweek % WEEKSECS ∨
      (jp.sweek % WEEKSECS = 0 ∧ inst.lastsweek = WEEKSECS - 1) ∨
      inst.lastsweek = jp.sweek % WEEKSECS) :
    countWarp (javad_parse_t inst jp).logs = 0 := by
  unfold javad_parse_t
  dsimp only
  by_cases h1 : inst.gweek = 0
  · rw [if_pos h1]
    by_cases h2 : inst.gpos_gweek = 0
    · rw [if_pos h2]; rfl
    · rw [if_neg h2]
      exact countWarp_rest _ _ _ _ rfl h
  · rw [if_neg h1]
    by_cases h3 : jp.sweek % WEEKSECS = 0 ∧ inst.lastsweek = WEEKSECS - 1
    · rw [if_pos h3]
      exact countWarp_rest _ _ _ _ (by simp [countWarp, List.countP_cons, isWarp]) h
    · rw [if_neg h3]
      exact countWarp_rest _ _ _ _ rfl h

theorem run_no_warp : ∀ (msgs : List Jpulse) (inst : Instance) (w : Nat),
    ((inst.gweek = 0 ∧ inst.gpos_gweek = 0) ∨ inst.lastsweek = 2 * WEEKSECS ∨
      inst.lastsweek = (w + (WEEKSECS - 1)) % WEEKSECS) →
    (∀ k (h : k < msgs.length), (msgs.get ⟨k, h⟩).sweek = w + k) →
    countWarp (javad_parse_t_run inst msgs).2 = 0 := by
  intro msgs
  induction msgs with
  | nil => intro inst w _ _; rfl
  | cons jp rest ih =>
      intro inst w hinv hsw
      have hjp : jp.sweek = w := by
        have h0 := hsw 0 (by simp)
        simpa using h0
      have hrest : ∀ k (h : k < rest.length),
          (rest.get ⟨k, h⟩).sweek = (w + 1) + k := by
        intro k h
        have hk := hsw (k + 1) (by simpa using Nat.succ_lt_succ h)
        simpa [Nat.add_assoc, Nat.add_comm 1 k] using hk
      unfold javad_parse_t_run
      dsimp only
      rw [countWarp_append]
      by_cases hF : inst.gweek = 0 ∧ inst.gpos_gweek = 0
      · rw [javad_parse_t_frozen inst jp hF.1 hF.2]
        have hrec := ih inst (w + 1) (Or.inl hF) hrest
        simpa [countWarp] using hrec
      · have hW : WEEKSECS = 604800 := rfl
        have hU : U32 = 4294967296 := rfl
        have hstep : countWarp (javad_parse_t inst jp).logs = 0 := by
          apply countWarp_parse
          rcases hinv with h | h | h
          · exact absurd h hF
          · exact Or.inl h
          · rw [hjp]
            by_cases hE : inst.lastsweek = WEEKSECS - 1
            · refine Or.inr (Or.inr (Or.inl ⟨?_, hE⟩))
              rw [hE] at h
              rw [hW] at h ⊢
              omega
            · refine Or.inr (Or.inl ?_)
              rw [h] at hE ⊢
              rw [hW] at hE ⊢
              rw [hU]
              omega
        have hlast : (javad_parse_t inst jp).inst.lastsweek =
            (w + 1 + (WEEKSECS - 1)) % WEEKSECS := by
          rw [javad_parse_t_inst_eq, resolveState_lastsweek inst jp.sweek hF, hjp]
          rw [hW]
          omega
        have hrec := ih (javad_parse_t inst jp).inst (w + 1)
          (Or.inr (Or.inr hlast)) hrest
        omega

/-- C9: confirmed.  (a) Starting from a freshly configured tracker
(`lastsweek` at its `2 * WEEKSECS` sentinel), any pulse sequence whose raw
seconds-into-week values increase by exactly one never produces a
"gps sweek jumped" warp diagnostic.  (b) From a week-known tracker the pulse
sequence `10, 11` logs no warp while `10, 11, 50` logs exactly one (hence
the warp happens at the `50` step).  (c) The stall/warp detection is
diagnostic only: the instance state after `javad_parse_t` is exactly
`resolveState` — week resolution, `lastsweek` update and timecode
reconstruction — which makes no reference to the warp conditions. -/
theorem claim_C9 :
    (∀ (inst : Instance) (w : Nat) (msgs : List Jpulse),
      inst.lastsweek = 2 * WEEKSECS →
      (∀ k (h : k < msgs.length), (msgs.get ⟨k, h⟩).sweek = w + k) →
      countWarp (javad_parse_t_run inst msgs).2 = 0) ∧
    (countWarp (javad_parse_t_run ⟨0, 0, 2200, 2 * WEEKSECS, 0⟩
        [⟨10, true, true⟩, ⟨11, true, true⟩]).2 = 0 ∧
      countWarp (javad_parse_t_run ⟨0, 0, 2200, 2 * WEEKSECS, 0⟩
        [⟨10, true, true⟩, ⟨11, true, true⟩, ⟨50, true, true⟩]).2 = 1) ∧
    (∀ (inst : Instance) (jp : Jpulse),
      (javad_parse_t inst jp).inst = resolveState inst jp.sweek) := by
  refine ⟨?_, ⟨?_, ?_⟩, javad_parse_t_inst_eq⟩
  · intro inst w msgs hs hsw
    exact run_no_warp msgs inst w (Or.inr (Or.inl hs)) hsw
  · decide
  · decide

theorem findCrLf_bound : ∀ (l : List Nat) (i : Nat),
    findCrLf l = some i → i + 2 ≤ l.length := by
  intro l
  induction l with
  | nil => intro i h; simp [findCrLf] at h
  | cons b t ih =>
      intro i h
      cases t with
      | nil => simp [findCrLf] at h
      | cons c rest =>
          rw [findCrLf] at h
          split_ifs at h with hbc
          · simp only [Option.some.injEq] at h
            subst h
            simp
          · rcases Option.map_eq_some'.mp h with ⟨j, hj, hji⟩
            have := ih j hj
            simp only [List.length_cons] at this ⊢
            omega

theorem findCrLf_append : ∀ (l r : List Nat) (i : Nat),
    findCrLf l = some i → findCrLf (l ++ r) = some i := by
  intro l r
  induction l with
  | nil => intro i h; simp [findCrLf] at h
  | cons b t ih =>
      intro i h
      cases t with
      | nil => simp [findCrLf] at h
      | cons c rest =>
          rw [findCrLf] at h
          rw [List.cons_append, List.cons_append, findCrLf]
          split_ifs at h with hbc
          · rw [if_pos hbc]
            exact h
          · rw [if_neg hbc]
            rcases Option.map_eq_some'.mp h with ⟨j, hj, hji⟩
            have := ih j hj
            rw [← List.cons_append, this]
            simp [hji]

theorem findCrLf_prefix_none (l r : List Nat)
    (h : findCrLf (l ++ r) = none) : findCrLf l = none := by
  cases hl : findCrLf l with
  | none => rfl
  | some i =>
      rw [findCrLf_append l r i hl] at h
      exact absurd h (by simp)

theorem findCrLf_take_none : ∀ (l : List Nat) (i : Nat),
    findCrLf l = some i → ∀ k, k ≤ i + 1 → findCrLf (l.take k) = none := by
  intro l
  induction l with
  | nil => intro i h; simp [findCrLf] at h
  | cons b t ih =>
      intro i h k hk
      cases t with
      | nil => simp [findCrLf] at h
      | cons c rest =>
          rw [findCrLf] at h
          split_ifs at h with hbc
          · simp only [Option.some.injEq] at h
            subst h
            interval_cases k <;> rfl
          · rcases Option.map_eq_some'.mp h with ⟨j, hj, hji⟩
            cases k with
            | zero => rfl
            | succ k1 =>
                cases k1 with
                | zero => rfl
                | succ k2 =>
                    show findCrLf (b :: c :: rest.take k2) = none
                    rw [findCrLf, if_neg hbc]
                    have hrec := ih j hj (k2 + 1) (by omega)
                    have : (c :: rest).take (k2 + 1) = c :: rest.take k2 := rfl
                    rw [this] at hrec
                    rw [hrec]
                    rfl

theorem findCrLf_take_some : ∀ (l : List Nat) (i : Nat),
    findCrLf l = some i → findCrLf (l.take (i + 2)) = some i := by
  intro l
  induction l with
  | nil => intro i h; simp [findCrLf] at h
  | cons b t ih =>
      intro i h
      cases t with
      | nil => simp [findCrLf] at h
      | cons c rest =>
          rw [findCrLf] at h
          split_ifs at h with hbc
          · simp only [Option.some.injEq] at h
            subst h
            show findCrLf (b :: c :: rest.take 0) = some 0
            rw [findCrLf, if_pos hbc]
          · rcases Option.map_eq_some'.mp h with ⟨j, hj, hji⟩
            subst hji
            show findCrLf (b :: c :: rest.take (j + 1)) = some (j + 1)
            rw [findCrLf, if_neg hbc]
            have hrec := ih j hj
            have : (c :: rest).take (j + 2) = c :: rest.take (j + 1) := rfl
            rw [this] at hrec
            rw [hrec]
            rfl

theorem crlfCount_zero_iff : ∀ (l : List Nat),
    crlfCount l = 0 ↔ findCrLf l = none := by
  intro l
  induction l with
  | nil => simp [crlfCount, findCrLf]
  | cons b t ih =>
      cases t with
      | nil => simp [crlfCount, findCrLf]
      | cons c rest =>
          rw [crlfCount, findCrLf]
          split_ifs with hbc
          · simp
          · simp only [Nat.zero_add, Option.map_eq_none']
            exact ih

theorem crlfCount_drop : ∀ (l : List Nat) (i : Nat),
    findCrLf l = some i → crlfCount l ≤ 1 →
    findCrLf (l.drop (i + 2)) = none := by
  intro l
  induction l with
  | nil => intro i h; simp [findCrLf] at h
  | cons b t ih =>
      intro i h hc
      cases t with
      | nil => simp [findCrLf] at h
      | cons c rest =>
          rw [findCrLf] at h
          rw [crlfCount] at hc
          split_ifs at h with hbc
          · simp only [Option.some.injEq] at h
            subst h
            rw [if_pos hbc] at hc
            have hten : crlfCount (c :: rest) = crlfCount rest := by
              rw [hbc.2]
              cases rest with
              | nil => rfl
              | cons r0 r1 =>
                  rw [crlfCount]
                  simp [crlfCount]
            rw [hten] at hc
            have : crlfCount rest = 0 := by omega
            have hnone := (crlfCount_zero_iff rest).mp this
            simpa using hnone
          · rw [if_neg hbc] at hc
            rcases Option.map_eq_some'.mp h with ⟨j, hj, hji⟩
            subst hji
            have := ih j hj (by omega)
            simpa using this

theorem javad_receive_run_append (cs1 cs2 : List (List Nat)) :
    ∀ (buf : List Nat),
    javad_receive_run buf (cs1 ++ cs2) =
      ((javad_receive_run (javad_receive_run buf cs1).1 cs2).1,
        (javad_receive_run buf cs1).2 ++
          (javad_receive_run (javad_receive_run buf cs1).1 cs2).2) := by
  induction cs1 with
  | nil => intro buf; simp [javad_receive_run]
  | cons c cs ih =>
      intro buf
      rw [List.cons_append]
      rw [javad_receive_run, javad_receive_run]
      rw [ih]
      simp

theorem javad_receive_step_none (buf : List Nat) (b : Nat)
    (hlen : buf.length + 1 ≤ 513)
    (hN : findCrLf (buf ++ [b]) = none) :
    javad_receive buf [b] = ⟨buf ++ [b], none, false⟩ := by
  have hmin : min ([b] : List Nat).length (IBUFSIZ + 1 - buf.length) = 1 := by
    simp only [List.length_singleton, IBUFSIZ]
    omega
  unfold javad_receive
  dsimp only
  rw [hmin]
  have htake : ([b] : List Nat).take 1 = [b] := rfl
  rw [htake, hN]

theorem run_singletons_none : ∀ (bytes buf : List Nat),
    findCrLf (buf ++ bytes) = none → buf.length + bytes.length ≤ 513 →
    javad_receive_run buf (bytes.map fun b => [b]) = (buf ++ bytes, []) := by
  intro bytes
  induction bytes with
  | nil => intro buf _ _; simp [javad_receive_run]
  | cons b bs ih =>
      intro buf hN hL
      have hassoc : buf ++ b :: bs = (buf ++ [b]) ++ bs := by simp
      rw [hassoc] at hN
      have hstep := javad_receive_step_none buf b
        (by simp only [List.length_cons] at hL; omega)
        (findCrLf_prefix_none _ _ hN)
      rw [List.map_cons, javad_receive_run, hstep]
      have hrec := ih (buf ++ [b]) hN
        (by simp only [List.length_append, List.length_singleton,
          List.length_cons, List.length_nil] at hL ⊢; omega)
      rw [hrec]
      rw [hassoc]
      simp

theorem javad_receive_empty (bytes : List Nat) (hlen : bytes.length ≤ 513) :
    javad_receive [] bytes =
      match findCrLf bytes with
      | none => ⟨bytes, none, false⟩
      | some i =>
          if bytes.length = i + 2 then ⟨[], some (bytes.take (i + 2)), false⟩
          else if bytes.length > i + 2 then
            ⟨bytes.drop (i + 2), some (bytes.take (i + 2)), false⟩
          else ⟨bytes, some (bytes.take (i + 2)), true⟩ := by
  unfold javad_receive
  dsimp only
  have hmin : min bytes.length (IBUFSIZ + 1 - ([] : List Nat).length) =
      bytes.length := by
    simp only [IBUFSIZ, List.length_nil]
    omega
  rw [hmin, List.take_length, List.nil_append]

/-- C5: the claim as stated is false: `javad_receive` consumes at most one
line per invocation, so delivering `"a\r\nb\r\n"` one byte at a time emits
both lines while delivering it in a single call emits only the first line
(the second stays buffered awaiting a later delivery). -/
theorem claim_C5_counterexample :
    (javad_receive_run []
      (([97, 13, 10, 98, 13, 10] : List Nat).map fun b => [b])).2 =
        [[97, 13, 10], [98, 13, 10]] ∧
    (javad_receive_run [] [[97, 13, 10, 98, 13, 10]]).2 = [[97, 13, 10]] ∧
    ([[97, 13, 10], [98, 13, 10]] : List (List Nat)) ≠ [[97, 13, 10]] := by
  decide

/-- C5: corrected.  Because each call consumes at most the first complete
line, chunking-invariance between byte-at-a-time and all-at-once delivery
holds only on a restricted class of inputs: for every NUL-free byte
sequence (NUL-free because `strlcpy` stops a bulk copy at a NUL byte while
`ssize` still advances, burying any later terminator in stale bytes) that
fits the buffer (length ≤ 513) and contains at most one `CR LF`
occurrence, both delivery granularities emit the same frames. -/
theorem claim_C5_amended :
    ∀ (bytes : List Nat), (∀ b ∈ bytes, b ≠ 0) → bytes.length ≤ 513 →
      crlfCount bytes ≤ 1 →
      (javad_receive_run [] (bytes.map fun b => [b])).2 =
        (javad_receive_run [] [bytes]).2 := by
  intro bytes hnz hlen hc
  cases hF : findCrLf bytes with
  | none =>
      have hL := run_singletons_none bytes [] (by simpa using hF)
        (by simpa using hlen)
      rw [hL]
      rw [javad_receive_run, javad_receive_run, javad_receive_empty bytes hlen,
        hF]
      simp
  | some i =>
      have hb := findCrLf_bound bytes i hF
      have hlt : i + 1 < bytes.length := by omega
      have hdrop : bytes.drop (i + 1) = bytes[i + 1] :: bytes.drop (i + 2) :=
        List.drop_eq_getElem_cons hlt
      have hdecomp : bytes = bytes.take (i + 1) ++ bytes[i + 1] ::
          bytes.drop (i + 2) := by
        conv_lhs => rw [← List.take_append_drop (i + 1) bytes]
        rw [hdrop]
      have hph1 : javad_receive_run []
          ((bytes.take (i + 1)).map fun b => [b]) = (bytes.take (i + 1), []) := by
        have h1 := run_singletons_none (bytes.take (i + 1)) []
          (by simpa using findCrLf_take_none bytes i hF (i + 1) (by omega))
          (by simp only [List.length_nil, List.length_take]; omega)
        simpa using h1
      have hlen1 : (bytes.take (i + 1)).length = i + 1 := by
        rw [List.length_take]
        omega
      have htake2 : bytes.take (i + 1) ++ [bytes[i + 1]] = bytes.take (i + 2) := by
        have h2 := List.take_concat_get bytes (i + 1) hlt
        rw [List.concat_eq_append] at h2
        exact h2
      have hl2 : (bytes.take (i + 2)).length = i + 2 := by
        rw [List.length_take]
        omega
      have hph2 : javad_receive (bytes.take (i + 1)) [bytes[i + 1]] =
          ⟨[], some (bytes.take (i + 2)), false⟩ := by
        unfold javad_receive
        dsimp only
        have hmin2 : min ([bytes[i + 1]] : List Nat).length
            (IBUFSIZ + 1 - (bytes.take (i + 1)).length) = 1 := by
          simp only [List.length_singleton, IBUFSIZ, hlen1]
          omega
        rw [hmin2]
        have ht1 : ([bytes[i + 1]] : List Nat).take 1 = [bytes[i + 1]] := rfl
        rw [ht1, htake2, findCrLf_take_some bytes i hF]
        dsimp only
        rw [if_pos hl2, List.take_take]
        simp
      have hph3 : javad_receive_run []
          ((bytes.drop (i + 2)).map fun b => [b]) = (bytes.drop (i + 2), []) := by
        have h3 := crlfCount_drop bytes i hF hc
        have h4 := run_singletons_none (bytes.drop (i + 2)) []
          (by simpa using h3)
          (by simp only [List.length_nil, List.length_drop]; omega)
        simpa using h4
      have hall : (javad_receive_run [] [bytes]).2 = [bytes.take (i + 2)] := by
        rw [javad_receive_run, javad_receive_run,
          javad_receive_empty bytes hlen, hF]
        dsimp only
        split_ifs with hA hB
        · rfl
        · rfl
        · exfalso
          omega
      rw [hall]
      conv_lhs => rw [hdecomp]
      rw [List.map_append, List.map_cons, javad_receive_run_append, hph1]
      rw [javad_receive_run, hph2, hph3]
      simp

theorem claim_C5_amended_witness :
    (javad_receive_run []
      (([104, 105, 13, 10, 55] : List Nat).map fun b => [b])).2 =
      (javad_receive_run [] [[104, 105, 13, 10, 55]]).2 :=
  claim_C5_amended [104, 105, 13, 10, 55] (by decide) (by decide) (by decide)

/-- C10: confirmed.  The `ssize < len` housekeeping branch of
`javad_receive`, which ends in `abort()`, is unreachable: the terminator
scan only examines the first `ssize` buffered bytes, so the consumed length
(terminator position plus two) never exceeds the buffered size, for every
buffer state and every delivery. -/
theorem claim_C10 : ∀ (buf chunk : List Nat),
    (javad_receive buf chunk).aborted = false := by
  intro buf chunk
  unfold javad_receive
  dsimp only
  split
  · rfl
  · next i hF =>
      have hb := findCrLf_bound _ _ hF
      split_ifs with hA hB
      · rfl
      · rfl
      · exfalso
        omega

/-- C7: the claim as stated is false on two counts.  A 600-byte delivery
into an empty buffer leaves 513 tracked bytes — one more than the declared
512-byte `ibuf` capacity (the clamp computes `sizeof(ibuf) - (ssize - 1)`,
i.e. `513 - ssize`, and `strlcpy` then writes one data byte plus the NUL
terminator past the array).  And when the buffer is full, a further
delivery leaves the buffered prefix fully intact and drops the incoming
byte: the newest data is truncated, not the oldest unconsumed data. -/
theorem claim_C7_counterexample :
    ((javad_receive [] (List.replicate 600 65)).buf.length = 513) ∧
    (513 > 512) ∧
    ((javad_receive (List.replicate 513 65) [66]).buf =
      List.replicate 513 65) := by
  decide

/-- C7: corrected.  The buffer does not grow unbounded and never fails, but
the bound is `513` tracked bytes (`sizeof(ibuf) - (ssize - 1)` worth of
room, one over the declared 512-byte array; the `ssize += len` accounting
holds for arbitrary chunks), and on overflow it is the newest incoming
bytes that are truncated while the oldest unconsumed buffered prefix is
kept: for a NUL-free delivery (`strlcpy` copies such a delivery verbatim)
in which no terminator is found, the new buffer is exactly the old buffer
followed by the clamped prefix of the delivery. -/
theorem claim_C7_amended :
    ∀ (buf chunk : List Nat), buf.length ≤ 513 →
      (javad_receive buf chunk).buf.length ≤ 513 ∧
      ((∀ b ∈ chunk, b ≠ 0) →
        findCrLf (buf ++ chunk.take (min chunk.length (IBUFSIZ + 1 - buf.length)))
          = none →
        (javad_receive buf chunk).buf =
          buf ++ chunk.take (min chunk.length (IBUFSIZ + 1 - buf.length))) := by
  intro buf chunk hlen
  have hb1 : (buf ++ chunk.take (min chunk.length (IBUFSIZ + 1 - buf.length))).length
      ≤ 513 := by
    simp only [List.length_append, List.length_take, IBUFSIZ]
    omega
  unfold javad_receive
  dsimp only
  split
  · next hF => exact ⟨hb1, fun _ _ => rfl⟩
  · next i hF =>
      constructor
      · split_ifs with hA hB
        · simp
        · simp only [List.length_drop]
          omega
        · exact hb1
      · intro _ hN
        rw [hN] at hF
        exact absurd hF (by simp)

/-- C6: the claim as stated is false.  For a header declaring
`payload_length = 1`, `javad_recv` requires only `1 + 1` payload-area
words, checksums the single payload word and compares against the next
word, accepting the 16-byte frame — while the claimed layout (`L + 1`
payload words plus a checksum word, checksum over `L + 1` words) would
need one more word and reports the same buffer as incomplete. -/
theorem claim_C6_counterexample :
    (javad_recv 100 [100, 0, 1, 0, 0, 65435, 7, 65529] = ⟨16, false⟩) ∧
    (spec_recv 100 [100, 0, 1, 0, 0, 65435, 7, 65529] = ⟨0, false⟩) ∧
    ((⟨16, false⟩ : JRecvResult) ≠ ⟨0, false⟩) := by
  decide

/-- C6: corrected.  For a frame whose validated header declares
`payload_length = L > 0`, the payload area consists of `L` 16-bit words
followed by one 16-bit checksum word (`L + 1` words in total, matching the
`n = (len + 1) * sizeof(u_short)` requirement), and the frame is accepted —
`javad_recv` returns the full frame size `12 + (L + 1) * 2` — exactly when
those `L + 1` words are buffered and the checksum computed over the `L`
payload words equals the transmitted word `sp[L]`. -/
theorem claim_C6_amended :
    ∀ (syncWord : Nat) (buf : List Nat) (len : Nat),
      2 * buf.length ≥ 12 →
      getshort (buf.getD 0 0) = syncWord →
      javad_cksum (buf.take 5) = getshort (buf.getD 5 0) →
      getshort (buf.getD 2 0) = len → 0 < len →
      ((javad_recv syncWord buf).cc = 12 + (len + 1) * 2 ↔
        (2 * buf.length ≥ 12 + (len + 1) * 2 ∧
          javad_cksum ((buf.drop 6).take len) =
            getshort ((buf.drop 6).getD len 0))) := by
  intro syncWord buf len h1 h2 h3 h4 h5
  unfold javad_recv
  dsimp only
  rw [if_neg (by omega), if_neg (not_not_intro h2), if_neg (not_not_intro h3),
    h4, if_pos h5]
  by_cases h6 : 2 * buf.length < 12 + (len + 1) * 2
  · rw [if_pos h6]
    constructor
    · intro h
      exfalso
      simp only at h
      omega
    · intro h
      exfalso
      omega
  · rw [if_neg h6]
    by_cases h7 : javad_cksum ((buf.drop 6).take len) =
        getshort ((buf.drop 6).getD len 0)
    · rw [if_neg (by simpa using h7)]
      simp only
      constructor
      · intro _
        exact ⟨by omega, h7⟩
      · intro _
        trivial
    · rw [if_pos h7]
      simp only
      constructor
      · intro h
        exfalso
        omega
      · intro h
        exact absurd h.2 h7

theorem claim_C6_amended_witness :
    (javad_recv 100 [100, 0, 1, 0, 0, 65435, 7, 65529]).cc = 12 + (1 + 1) * 2 ↔
      (2 * ([100, 0, 1, 0, 0, 65435, 7, 65529] : List Nat).length ≥
          12 + (1 + 1) * 2 ∧
        javad_cksum ((([100, 0, 1, 0, 0, 65435, 7, 65529] : List Nat).drop 6).take 1) =
          getshort ((([100, 0, 1, 0, 0, 65435, 7, 65529] : List Nat).drop 6).getD 1 0)) :=
  claim_C6_amended 100 [100, 0, 1, 0, 0, 65435, 7, 65529] 1 (by decide)
    (by decide) (by decide) (by decide) (by decide)

/-- C8: confirmed.  On each poll: if the selected edge's sequence number
(assert or clear, per the configured capture mode) is unchanged from the
last observation, or the selected edge's timestamp is bit-identical to the
last emitted one, `javad_pps` emits nothing and the stored last-emitted
timestamp is unchanged; consequently fetching the same
`(assert_sequence, timestamp)` pair twice emits exactly one sample: the
first poll emits it, the second emits nothing. -/
theorem claim_C8 :
    (∀ (st : PpsState) (f : PpsInfo), st.modeAssert = true →
      f.assert_sequence = st.pps_info.assert_sequence →
      javad_pps st f = ({ st with pps_info := f }, none)) ∧
    (∀ (st : PpsState) (f : PpsInfo), st.modeAssert = true →
      f.assert_timestamp = st.ts →
      (javad_pps st f).2 = none ∧ (javad_pps st f).1.ts = st.ts) ∧
    (∀ (st : PpsState) (f : PpsInfo), st.modeAssert = false →
      st.modeClear = true →
      (f.clear_sequence = st.pps_info.clear_sequence ∨
        f.clear_timestamp = st.ts) →
      (javad_pps st f).2 = none ∧ (javad_pps st f).1.ts = st.ts) ∧
    (∀ (st : PpsState) (f : PpsInfo), st.modeAssert = true →
      f.assert_sequence ≠ st.pps_info.assert_sequence →
      f.assert_timestamp ≠ st.ts →
      (javad_pps st f).2 = some f.assert_timestamp ∧
      (javad_pps (javad_pps st f).1 f).2 = none) := by
  refine ⟨?_, ?_, ?_, ?_⟩
  · intro st f h1 h2
    simp [javad_pps, h1, h2]
  · intro st f h1 h2
    by_cases hs : st.pps_info.assert_sequence = f.assert_sequence
    · simp [javad_pps, h1, hs]
    · simp [javad_pps, h1, hs, h2]
  · intro st f h0 h1 h2
    rcases h2 with h2 | h2
    · simp [javad_pps, h0, h1, h2]
    · by_cases hs : st.pps_info.clear_sequence = f.clear_sequence
      · simp [javad_pps, h0, h1, hs]
      · simp [javad_pps, h0, h1, hs, h2]
  · intro st f h1 h2 h3
    have hs : ¬(st.pps_info.assert_sequence = f.assert_sequence) :=
      fun h => h2 h.symm
    have ht : ¬(st.ts = f.assert_timestamp) := fun h => h3 h.symm
    constructor
    · simp [javad_pps, h1, hs, ht]
    · simp [javad_pps, h1, hs, ht]

theorem claim_C8_witness :
    (javad_pps ⟨⟨1, 1, ⟨0, 0⟩, ⟨0, 0⟩⟩, ⟨5, 5⟩, true, false⟩
      ⟨2, 1, ⟨100, 7⟩, ⟨0, 0⟩⟩).2 = some ⟨100, 7⟩ ∧
    (javad_pps (javad_pps ⟨⟨1, 1, ⟨0, 0⟩, ⟨0, 0⟩⟩, ⟨5, 5⟩, true, false⟩
      ⟨2, 1, ⟨100, 7⟩, ⟨0, 0⟩⟩).1 ⟨2, 1, ⟨100, 7⟩, ⟨0, 0⟩⟩).2 = none :=
  claim_C8.2.2.2 ⟨⟨1, 1, ⟨0, 0⟩, ⟨0, 0⟩⟩, ⟨5, 5⟩, true, false⟩
    ⟨2, 1, ⟨100, 7⟩, ⟨0, 0⟩⟩ rfl (by decide) (by decide)

theorem claim_C7_amended_witness :
    (javad_receive [70, 71] [72, 13]).buf.length ≤ 513 ∧
    (javad_receive [70, 71] [72, 13]).buf = [70, 71, 72, 13] :=
  ⟨(claim_C7_amended [70, 71] [72, 13] (by decide)).1,
    ((claim_C7_amended [70, 71] [72, 13] (by decide)).2 (by decide)
      (by decide)).trans (by decide)⟩

theorem claim_C9_witness :
    countWarp (javad_parse_t_run ⟨3, 4, 2205, 2 * WEEKSECS, 0⟩
      [⟨7, true, true⟩, ⟨8, false, true⟩]).2 = 0 :=
  claim_C9.1 ⟨3, 4, 2205, 2 * WEEKSECS, 0⟩ 7
    [⟨7, true, true⟩, ⟨8, false, true⟩] rfl (by decide)

end RefclockJavad
